import Mathlib

/-!
Verification of the lmtm tunneling core against its specification.

Shallow embedding of the Go sources:
* `internal/portmap` (port allocation): `Portmap`
* `internal/gateway` (subnet validation, MikroTik command construction): `Gateway`
* `internal/discovery` (device classification): `Discovery`
* `internal/ssh` (tunnel listen address, accept loop, host-key pinning,
  tunnel manager event stream): `Ssh`

Go strings are modelled as `String` (parsing helpers work on `String.data`,
the underlying character list). Go `int` is modelled as `Int`. Go maps are
modelled as association lists; only key lookup, insertion and deletion are
used by the embedded code. Fallible operations return `Option`; a `none`
produced by an operation that Go would `panic` on is noted at its
definition.
-/

namespace Lmtm


/-- ASCII decimal digit test (Go regexp `\d` and `unicode.IsDigit` agree on
ASCII, which is all the embedded parsers accept). -/
def isDigitCh (c : Char) : Bool := '0' ≤ c && c ≤ '9'

/-- Numeric value of an ASCII digit character. -/
def digitVal (c : Char) : Nat := c.toNat - 48

/-- Decimal value of a digit string, most significant digit first. -/
def digitsToNat (l : List Char) : Nat := l.foldl (fun a c => a * 10 + digitVal c) 0

/-- `strings.Split(s, ".")`: split a character list on `'.'`.
Always returns at least one part; adjacent dots give empty parts. -/
def splitDots : List Char → List (List Char)
  | [] => [[]]
  | c :: rest =>
    if c = '.' then [] :: splitDots rest
    else
      match splitDots rest with
      | [] => [[c]]
      | p :: ps => (c :: p) :: ps

/-- Rebuild the original list from its dot-split parts. -/
def joinDots : List (List Char) → List Char
  | [] => []
  | [p] => p
  | p :: ps => p ++ '.' :: joinDots ps

namespace Portmap

/-!  Embedding of the port allocator (package `portmap`). -/

/-- `PortMapping` from the source: one local-to-remote forward record. -/
structure PortMapping where
  localPort  : Int
  remoteHost : String
  remotePort : Int
deriving DecidableEq, Repr

/-- One dotted-quad field as Go `net.ParseIP` accepts it: one to three
decimal digits, value at most 255, and no leading zero (Go rejects
IPv4 fields with leading zeros). -/
def goIPv4Field (p : List Char) : Option Nat :=
  if p.length = 0 ∨ ¬ p.all isDigitCh then none
  else if p.length > 1 ∧ p.headD ' ' = '0' then none
  else if p.length > 3 then none
  else
    let v := digitsToNat p
    if v ≤ 255 then some v else none

/-- Go `net.ParseIP` followed by `To4`, restricted to dotted-quad IPv4
input (the only shape `lastOctet`'s callers produce; IPv6 text forms are
out of scope of the verified claims). Returns the four octet values. -/
def parseIPv4 (s : String) : Option (Nat × Nat × Nat × Nat) :=
  match (splitDots s.data).mapM goIPv4Field with
  | some [a, b, c, d] => some (a, b, c, d)
  | _ => none

/-- Go `strconv.Atoi`: optional sign then decimal digits. (64-bit overflow,
which Go reports as an error, is not modelled; the embedded caller bounds
the result to 0..255 immediately.) -/
def goAtoi (p : List Char) : Option Int :=
  match p with
  | [] => none
  | '+' :: rest =>
    if rest ≠ [] ∧ rest.all isDigitCh then some (digitsToNat rest : Int) else none
  | '-' :: rest =>
    if rest ≠ [] ∧ rest.all isDigitCh then some (-(digitsToNat rest : Int)) else none
  | _ => if p.all isDigitCh then some (digitsToNat p : Int) else none

/-- `lastOctet` from the source: parse as IPv4 and take the fourth octet;
on parse failure fall back to splitting on dots and `Atoi` of the fourth
part bounded to 0..255; otherwise 0. -/
def lastOctet (ip : String) : Int :=
  match parseIPv4 ip with
  | some (_, _, _, d) => (d : Int)
  | none =>
    let parts := splitDots ip.data
    if parts.length = 4 then
      match goAtoi (parts.getLastD []) with
      | some n => if 0 ≤ n ∧ n ≤ 255 then n else 0
      | none => 0
    else 0

/-- `PortBase` from the source: fixed bases for 443/80/22/554, otherwise
`10000 + remotePort*10`. -/
def PortBase (remotePort : Int) : Int :=
  if remotePort = 443 then 4430
  else if remotePort = 80 then 8030
  else if remotePort = 22 then 2230
  else if remotePort = 554 then 5540
  else 10000 + remotePort * 10

/-- `LocalPort` from the source: base plus last octet of the remote IP. -/
def LocalPort (remoteIP : String) (remotePort : Int) : Int :=
  PortBase remotePort + lastOctet remoteIP

/-- The allocator's `allocated` map (`map[int]PortMapping`), modelled as an
association list; only key lookup, insert and delete are used. -/
abbrev AllocTable := List (Int × PortMapping)

/-- Map lookup `pa.allocated[k]`. -/
def tblGet : AllocTable → Int → Option PortMapping
  | [], _ => none
  | (k, v) :: t, x => if x = k then some v else tblGet t x

/-- The probe loop body of `Allocate`: for `i` from the current index while
`i < 256` (expressed by the fuel `256 - i`), stop with `none` once
`port+i > 65535`, skip taken candidates, and return the first free one. -/
def probeAux (pa : AllocTable) (port : Int) : Nat → Nat → Option Int
  | _, 0 => none
  | i, fuel + 1 =>
    let candidate := port + (i : Int)
    if candidate > 65535 then none
    else if (tblGet pa candidate).isSome then probeAux pa port (i + 1) fuel
    else some candidate

/-- The full probe: up to 256 consecutive candidates starting at `port`. -/
def probe (pa : AllocTable) (port : Int) : Option Int := probeAux pa port 0 256

/-- `Allocate` from the source: compute the formula port, linearly probe up
to 256 consecutive ports, record the first free one in the table; `none`
models the "no available local port" error (table unchanged). -/
def Allocate (pa : AllocTable) (remoteIP : String) (remotePort : Int) :
    Option Int × AllocTable :=
  match probe pa (LocalPort remoteIP remotePort) with
  | some c => (some c, (c, ⟨c, remoteIP, remotePort⟩) :: pa)
  | none => (none, pa)

/-- `Release` from the source: delete the key from the table. -/
def Release (pa : AllocTable) (localPort : Int) : AllocTable :=
  pa.filter (fun kv => kv.1 ≠ localPort)

/-- A sequence of `Allocate` calls (no intervening `Release`), collecting
the successfully returned local ports in order. -/
def runAlloc : AllocTable → List (String × Int) → List Int × AllocTable
  | pa, [] => ([], pa)
  | pa, (ip, rp) :: rest =>
    match Allocate pa ip rp with
    | (some c, pa') =>
      let r := runAlloc pa' rest
      (c :: r.1, r.2)
    | (none, pa') => runAlloc pa' rest

/-- `n` consecutive `Allocate` calls for one fixed remote host and port;
the boolean records whether every call succeeded. -/
def allocMany (ip : String) (rp : Int) : Nat → AllocTable → Bool × AllocTable
  | 0, pa => (true, pa)
  | n + 1, pa =>
    match Allocate pa ip rp with
    | (some _, pa') => allocMany ip rp n pa'
    | (none, pa') => (false, pa')

/-- Number of taken slots in the probe window starting at `port`. -/
def takenCount (pa : AllocTable) (port : Int) : Nat :=
  ((List.range 256).filter
    (fun (i : Nat) => (tblGet pa (port + (i : Int))).isSome)).length

/-! ### Closed-form run for repeated allocations against one remote -/

/-- The table after `n` successful consecutive allocations of
`port`, `port+1`, …, `port+n-1` for one remote host and port (newest
entry first, as `Allocate` prepends). -/
def seqTable (ip : String) (rp : Int) (port : Int) : Nat → AllocTable
  | 0 => []
  | n + 1 => (port + (n : Int), ⟨port + (n : Int), ip, rp⟩) :: seqTable ip rp port n

end Portmap

namespace Gateway

/-!  Embedding of subnet validation and gateway command construction
(package `gateway`: the subnet validator, `mikrotik.go`, and the
Ubiquiti gateway implementation). -/

/-- The regexp `^\d{1,3}\.\d{1,3}\.\d{1,3}$` (`subnetRe` in the source):
the string is exactly three dot-separated runs of one to three ASCII
decimal digits. -/
def subnetReMatch (s : String) : Bool :=
  match splitDots s.data with
  | [p1, p2, p3] =>
    (decide (1 ≤ p1.length) && decide (p1.length ≤ 3) && p1.all isDigitCh) &&
    (decide (1 ≤ p2.length) && decide (p2.length ≤ 3) && p2.all isDigitCh) &&
    (decide (1 ≤ p3.length) && decide (p3.length ≤ 3) && p3.all isDigitCh)
  | _ => false

/-- The two error cases of `ValidateSubnet`: regexp failure and octet
range failure. -/
inductive SubnetError
  | formatErr
  | rangeErr
deriving DecidableEq, Repr

/-- `ValidateSubnet` from the source: the regexp gate, then the 0–255
range check of the three octets that `fmt.Sscanf(subnet, "%d.%d.%d", …)`
parses (once the regexp matched, `Sscanf` reads exactly the three digit
runs). `none` means valid. -/
def ValidateSubnet (subnet : String) : Option SubnetError :=
  if ¬ subnetReMatch subnet = true then some .formatErr
  else
    match splitDots subnet.data with
    | [p1, p2, p3] =>
      if digitsToNat p1 ≤ 255 ∧ digitsToNat p2 ≤ 255 ∧ digitsToNat p3 ≤ 255
      then none else some .rangeErr
    | _ => some .formatErr

/-- The sweep command `mikrotikGateway.FloodPing` interpolates the subnet
into. -/
def mikrotikPingCmd (subnet : String) : String :=
  ":for i from=1 to=254 do=\x7b/ping " ++ subnet ++ ".$i count=1 interval=0.1\x7d"

/-- `mikrotikGateway.FloodPing`, projected to the command strings it
passes to the injected CommandRunner: validation failure rejects before
any command is issued. -/
def mikrotikFloodPingCmds (subnet : String) : List String :=
  match ValidateSubnet subnet with
  | some _ => []
  | none => [mikrotikPingCmd subnet]

/-- The fixed ARP listing command of `mikrotikGateway.ARPTable`. -/
def mikrotikARPCmd : String := "/ip arp print terse where !invalid"

/-- `mikrotikGateway.ARPTable`, projected to the command strings it passes
to the CommandRunner: a non-empty subnet is validated before the listing
command is issued. -/
def mikrotikARPTableCmds (subnet : String) : List String :=
  if subnet ≠ "" then
    match ValidateSubnet subnet with
    | some _ => []
    | none => [mikrotikARPCmd]
  else [mikrotikARPCmd]

/-- The parallel ping sweep command `ubiquitiGateway.FloodPing`
interpolates the subnet into. -/
def ubiquitiPingCmd (subnet : String) : String :=
  "for i in $(seq 1 254); do ping -c1 -W1 " ++ subnet ++
    ".$i &>/dev/null & done; wait"

/-- `ubiquitiGateway.FloodPing`, projected to the command strings it
passes to the injected CommandRunner: validation failure rejects before
any command is issued. -/
def ubiquitiFloodPingCmds (subnet : String) : List String :=
  match ValidateSubnet subnet with
  | some _ => []
  | none => [ubiquitiPingCmd subnet]

/-- The primary and fallback listing commands of
`ubiquitiGateway.ARPTable`. -/
def ubiquitiNeighCmd : String := "ip neigh show 2>/dev/null"

/-- The BusyBox fallback listing command of `ubiquitiGateway.ARPTable`. -/
def ubiquitiArpACmd : String := "arp -a 2>/dev/null"

/-- `ubiquitiGateway.ARPTable`, projected to the command strings it
passes to the CommandRunner: a non-empty subnet is validated before any
command is issued; then `ip neigh show` runs, and only when it fails or
returns blank output (`ipNeighOk = false`, decided by the environment)
does the `arp -a` fallback run as well. -/
def ubiquitiARPTableCmds (subnet : String) (ipNeighOk : Bool) : List String :=
  if subnet ≠ "" then
    match ValidateSubnet subnet with
    | some _ => []
    | none =>
      if ipNeighOk then [ubiquitiNeighCmd]
      else [ubiquitiNeighCmd, ubiquitiArpACmd]
  else
    if ipNeighOk then [ubiquitiNeighCmd]
    else [ubiquitiNeighCmd, ubiquitiArpACmd]

/-- The claim's wording, stated independently of the implementation: the
string is three dot-separated decimal octets, each one to three digits
with value in 0–255. -/
def SpecSubnet (s : String) : Prop :=
  ∃ p1 p2 p3 : List Char,
    s.data = p1 ++ '.' :: (p2 ++ '.' :: p3) ∧
    (∀ p ∈ [p1, p2, p3], p ≠ [] ∧ p.length ≤ 3 ∧
      p.all isDigitCh = true ∧ digitsToNat p ≤ 255)

end Gateway

namespace Discovery

/-!  Embedding of device classification (package `discovery`:
`classify.go` and the `DeviceClass` type with `DefaultPorts`). -/

/-- `DeviceClass` from the source. -/
inductive DeviceClass
  | ClassUnknown
  | ClassCamera
  | ClassNVR
  | ClassRouter
  | ClassNetworkDevice
  | ClassServer
  | ClassCustom
deriving DecidableEq, Repr

/-- Go `strings.ToLower`, restricted to the ASCII case mapping (every
keyword the classifier compares against is ASCII). -/
def toLowerStr (s : String) : List Char := s.data.map Char.toLower

/-- Go `strings.Contains hay needle`: substring containment. -/
def hasSub (needle : List Char) : List Char → Bool
  | [] => needle.isEmpty
  | c :: t => needle.isPrefixOf (c :: t) || hasSub needle t

/-- The camera vendor keywords from the source, in source order. -/
def cameraKeywords : List String :=
  ["hikvision", "dahua", "axis", "vivotek", "hanwha", "reolink"]

/-- The NVR / NAS vendor keywords from the source. -/
def nvrKeywords : List String := ["synology", "qnap"]

/-- The network-device vendor keywords from the source. -/
def netKeywords : List String :=
  ["ubiquiti", "ui.com", "cisco", "juniper", "aruba", "hpe"]

/-- `ClassifyByVendor` from the source: lowercase the vendor string, then
check the keyword lists in order (cameras, NVR/NAS, the router vendor,
network devices); the first list with a contained keyword decides the
class, otherwise `ClassUnknown`. -/
def ClassifyByVendor (vendor : String) : DeviceClass :=
  let v := toLowerStr vendor
  if cameraKeywords.any (fun kw => hasSub kw.data v) then .ClassCamera
  else if nvrKeywords.any (fun kw => hasSub kw.data v) then .ClassNVR
  else if hasSub "mikrotik".data v then .ClassRouter
  else if netKeywords.any (fun kw => hasSub kw.data v) then .ClassNetworkDevice
  else .ClassUnknown

/-- `DeviceClass.DefaultPorts` from the source. -/
def DefaultPorts : DeviceClass → List Int
  | .ClassCamera => [22, 80, 443, 554]
  | .ClassNVR => [22, 80, 443, 554]
  | .ClassRouter => [22, 80, 443]
  | .ClassNetworkDevice => [22, 80, 443]
  | .ClassServer => [22, 80, 443]
  | _ => [80, 443]

end Discovery

namespace Ssh

/-!  Embedding of the ssh package: the tunnel listen address and accept
loop (`tunnel.go`), host-key pinning (`client.go`), and the tunnel
manager (`manager.go`). -/

/-- `TunnelStatus` from the source. -/
inductive TunnelStatus
  | StatusDisconnected
  | StatusConnecting
  | StatusActive
  | StatusFailed
deriving DecidableEq, Repr

/-- One decimal digit character, as `fmt.Sprintf("%d", ·)` prints it
(argument taken modulo the caller's `% 10`). -/
def digitOf : Nat → Char
  | 0 => '0'
  | 1 => '1'
  | 2 => '2'
  | 3 => '3'
  | 4 => '4'
  | 5 => '5'
  | 6 => '6'
  | 7 => '7'
  | 8 => '8'
  | _ => '9'

/-- Decimal digits of `n`, most significant first, as `%d` prints a
nonnegative value. The fuel (`n+1` at the entry point) strictly bounds
the digit count, making the recursion structural. -/
def natDigitsAux : Nat → Nat → List Char
  | 0, _ => []
  | fuel + 1, n =>
    if n < 10 then [digitOf n]
    else natDigitsAux fuel (n / 10) ++ [digitOf (n % 10)]

/-- Decimal digit string of a natural number. -/
def natDigits (n : Nat) : List Char := natDigitsAux (n + 1) n

/-- `fmt.Sprintf("%d", i)` for a Go int. -/
def intDecimal (i : Int) : List Char :=
  if i < 0 then '-' :: natDigits i.natAbs else natDigits i.toNat

/-- The `fmt.Sprintf("127.0.0.1:%d", t.LocalPort)` listen address built by
`Tunnel.Start`. -/
def listenAddr (localPort : Int) : List Char :=
  "127.0.0.1:".data ++ intDecimal localPort

/-- Host part of a `host:port` address as network address splitting reads
it: everything before the last colon. -/
def addrHost (s : List Char) : List Char :=
  ((s.reverse.dropWhile (fun c => c != ':')).drop 1).reverse

/-- The `Tunnel` fields the verified claims observe. -/
structure Tunnel where
  localPort  : Int
  remoteHost : String
  remotePort : Int
  status     : TunnelStatus
  errSet     : Bool
deriving DecidableEq, Repr

/-- `NewTunnel` from the source: status starts disconnected, no error. -/
def NewTunnel (localPort : Int) (remoteHost : String) (remotePort : Int) : Tunnel :=
  ⟨localPort, remoteHost, remotePort, .StatusDisconnected, false⟩

/-- `Tunnel.Start`: set status connecting, bind `127.0.0.1:<LocalPort>`
(whether the OS bind succeeds is environment input `bindOk`); on failure
status failed and the wrapped error is set; on success status active and
the accept loop is spawned in the background. Returns the address bound
on success. -/
def tunnelStart (t : Tunnel) (bindOk : Bool) : Option (List Char) × Tunnel :=
  if bindOk then
    (some (listenAddr t.localPort), { t with status := .StatusActive })
  else
    (none, { t with status := .StatusFailed, errSet := true })

/-- One observed outcome of `listener.Accept()` in the accept loop: a
successful accept (a forward task is spawned, the error counter resets)
or an accept error with the tunnel not cancelled (a cancelled tunnel's
loop exits cleanly before counting). -/
inductive AcceptResult
  | ok
  | err
deriving DecidableEq, Repr

/-- What `Tunnel.acceptLoop` did over an observation window. -/
structure LoopResult where
  status  : Option TunnelStatus
  errSet  : Bool
  accepts : Nat
  exited  : Bool
deriving DecidableEq, Repr

/-- `Tunnel.acceptLoop` over a finite window of accept outcomes, carrying
the `consecutiveErrors` counter. An error increments the counter and,
once it reaches 10, the loop sets status failed, sets the error and
returns; a successful accept resets the counter to zero. An exhausted
window leaves the loop still running (`exited = false`); `accepts` counts
the Accept calls made. -/
def acceptLoop : List AcceptResult → Nat → LoopResult
  | [], _ => ⟨none, false, 0, false⟩
  | .ok :: rest, _ =>
    let r := acceptLoop rest 0
    { r with accepts := r.accepts + 1 }
  | .err :: rest, consecutiveErrors =>
    if consecutiveErrors + 1 ≥ 10 then ⟨some .StatusFailed, true, 1, true⟩
    else
      let r := acceptLoop rest (consecutiveErrors + 1)
      { r with accepts := r.accepts + 1 }

/-- Ten consecutive accept errors somewhere in the window. -/
def tenConsecutiveErrs (tr : List AcceptResult) : Prop :=
  ∃ i < tr.length, ∀ j < 10, tr[i + j]? = some .err

instance (tr : List AcceptResult) : Decidable (tenConsecutiveErrs tr) := by
  unfold tenConsecutiveErrs
  infer_instance

/-- An SSH public key as the host-key callback observes it: its type
string and its marshalled wire form. -/
structure PubKey where
  keyType : String
  marshal : List Nat
deriving DecidableEq, Repr

/-- `subtle.ConstantTimeCompare`: 1 exactly when the two byte strings
have equal length and equal contents, 0 otherwise. (The timing property
itself is not representable in a functional model.) -/
def constantTimeCompare (x y : List Nat) : Nat :=
  if x = y then 1 else 0

/-- The Client's in-memory known-hosts store, host → pinned key. -/
abbrev KnownHosts := List (String × PubKey)

/-- Map lookup `c.knownHosts[host]`. -/
def khGet : KnownHosts → String → Option PubKey
  | [], _ => none
  | (h, k) :: t, x => if x = h then some k else khGet t x

/-- Outcome of one host-key verification. -/
inductive HostKeyOutcome
  | accepted
  | mismatch
deriving DecidableEq, Repr

/-- `Client.hostKeyCallback` from the source, verifying `key` for `host`:
on first contact the key is pinned (stored) and accepted; on later
contact the callback accepts exactly when the key type matches and the
marshalled forms compare equal under `constantTimeCompare`, and otherwise
returns the host-key mismatch error, leaving the store unchanged. -/
def hostKeyCheck (kh : KnownHosts) (host : String) (key : PubKey) :
    HostKeyOutcome × KnownHosts :=
  match khGet kh host with
  | none => (.accepted, (host, key) :: kh)
  | some stored =>
    if key.keyType ≠ stored.keyType ∨
        constantTimeCompare key.marshal stored.marshal ≠ 1
    then (.mismatch, kh)
    else (.accepted, kh)

end Ssh

namespace Ssh

/-!  Embedding of the tunnel Manager (`manager.go`). -/

/-- `EventType` from the source. -/
inductive EventType
  | EventStarted
  | EventActive
  | EventFailed
  | EventClosed
deriving DecidableEq, Repr

/-- `TunnelSpec` from the source. -/
structure TunnelSpec where
  remoteHost : String
  remotePort : Int
  localPort  : Int
deriving DecidableEq, Repr

/-- A `TunnelEvent`; the tunnel is referenced by its index in the
manager's tunnel list (the index ties each event to the spec it was
created from). -/
structure MEvent where
  tunnelIdx : Nat
  type      : EventType
deriving DecidableEq, Repr

/-- The Manager state the verified claims observe: the tunnel list, the
ordered sequence of events offered to the event channel (a full buffer
drops an offered event on the consumer side, which does not change this
order), the `closed` guard flag, whether the Go channel itself has been
closed, the build-context cancellation flag, and whether the SSH client
was closed. -/
structure MState where
  tunnels        : List TunnelSpec
  offered        : List MEvent
  closed         : Bool
  chClosed       : Bool
  buildCancelled : Bool
  clientClosed   : Bool
deriving DecidableEq, Repr

/-- `NewManager`: open channel, nothing built, nothing cancelled. -/
def NewManager : MState := ⟨[], [], false, false, false, false⟩

/-- `Manager.emit`: under the close mutex, return without sending when
`closed` is set; otherwise offer the event to the channel without
blocking. Sending on a closed Go channel panics (`none`); the `closed`
guard is what makes that branch unreachable. -/
def emit (s : MState) (ev : MEvent) : Option MState :=
  if s.closed then some s
  else if s.chClosed then none
  else some { s with offered := s.offered ++ [ev] }

/-- The loop body of `Manager.BuildTunnels`: per spec, check cancellation
(returning the "build cancelled" error), append the new tunnel, emit
started, start it (`ok` gives each Start outcome by tunnel index), emit
active or failed, record the first error, then continue after the fixed
pacing delay. `none` models a panic inside `emit`. -/
def buildLoop (ok : Nat → Bool) :
    List TunnelSpec → MState → Bool → Option (Bool × MState)
  | [], s, firstErr => some (firstErr, s)
  | sp :: rest, s, firstErr =>
    if s.buildCancelled then some (true, s)
    else
      match emit { s with tunnels := s.tunnels ++ [sp] }
          ⟨s.tunnels.length, EventType.EventStarted⟩ with
      | none => none
      | some s2 =>
        match emit s2 ⟨s.tunnels.length,
            if ok s.tunnels.length then EventType.EventActive
            else EventType.EventFailed⟩ with
        | none => none
        | some s3 => buildLoop ok rest s3 (firstErr || !(ok s.tunnels.length))

/-- `Manager.BuildTunnels`: an empty spec list is an error; otherwise run
the loop. The boolean result records whether an error was returned. -/
def BuildTunnels (ok : Nat → Bool) (specs : List TunnelSpec) (s : MState) :
    Option (Bool × MState) :=
  if specs.isEmpty then some (true, s) else buildLoop ok specs s false

/-- The per-tunnel loop of `Manager.CloseAll`: stop each tunnel (`stopErr`
gives each Stop outcome, collected into the first error without aborting)
and emit closed for it. -/
def closeLoop (stopErr : Nat → Bool) :
    List Nat → MState → Bool → Option (Bool × MState)
  | [], s, err => some (err, s)
  | i :: rest, s, err =>
    match emit s ⟨i, EventType.EventClosed⟩ with
    | none => none
    | some s2 => closeLoop stopErr rest s2 (err || stopErr i)

/-- `Manager.CloseAll`: cancel any in-flight build, stop every tunnel and
emit closed per tunnel, then set the `closed` flag and close the event
channel — closing an already-closed Go channel panics (`none`) — and
finally close the SSH client. -/
def CloseAll (stopErr : Nat → Bool) (s : MState) : Option (Bool × MState) :=
  match closeLoop stopErr (List.range s.tunnels.length)
      { s with buildCancelled := true } false with
  | none => none
  | some (err, s1) =>
    if s1.chClosed then none
    else some (err, { s1 with closed := true, chClosed := true,
                              clientClosed := true })

/-- The event sequence the spec promises for a build: for each spec, in
input order, a started event then exactly one outcome event (active when
its Start succeeded, failed otherwise), never interleaved. `i` is the
index of the first tunnel built. -/
def specEvents (ok : Nat → Bool) : Nat → Nat → List MEvent
  | _, 0 => []
  | i, n + 1 =>
    ⟨i, EventType.EventStarted⟩ ::
      ⟨i, if ok i then EventType.EventActive else EventType.EventFailed⟩ ::
      specEvents ok (i + 1) n

end Ssh

/-! ## Lemmas and claim theorems -/

/-! ### splitDots structure lemmas -/

lemma splitDots_ne_nil : ∀ l : List Char, splitDots l ≠ [] := by
  intro l
  cases l with
  | nil => simp [splitDots]
  | cons c rest =>
    rw [splitDots]
    by_cases hc : c = '.'
    · simp [hc]
    · simp only [hc, if_false]
      cases splitDots rest <;> simp

lemma splitDots_dot_cons (t : List Char) :
    ∀ p : List Char, (∀ c ∈ p, c ≠ '.') →
      splitDots (p ++ '.' :: t) = p :: splitDots t := by
  intro p
  induction p with
  | nil => intro _; simp [splitDots]
  | cons a q ih =>
    intro hp
    have ha : a ≠ '.' := hp a (List.mem_cons_self a q)
    have hq : ∀ c ∈ q, c ≠ '.' := fun c hc => hp c (List.mem_cons_of_mem a hc)
    rw [List.cons_append, splitDots]
    simp only [ha, if_false]
    rw [ih hq]

lemma splitDots_no_dot :
    ∀ p : List Char, (∀ c ∈ p, c ≠ '.') → splitDots p = [p] := by
  intro p
  induction p with
  | nil => intro _; rfl
  | cons a q ih =>
    intro hp
    have ha : a ≠ '.' := hp a (List.mem_cons_self a q)
    have hq : ∀ c ∈ q, c ≠ '.' := fun c hc => hp c (List.mem_cons_of_mem a hc)
    rw [splitDots]
    simp only [ha, if_false]
    rw [ih hq]
lemma joinDots_splitDots : ∀ l : List Char, joinDots (splitDots l) = l := by
  intro l
  induction l with
  | nil => rfl
  | cons c rest ih =>
    rw [splitDots]
    by_cases hc : c = '.'
    · subst hc
      simp only [if_true]
      cases hs : splitDots rest with
      | nil => exact absurd hs (splitDots_ne_nil rest)
      | cons p ps =>
        rw [hs] at ih
        cases ps with
        | nil => simp [joinDots] at ih ⊢; exact ih
        | cons q qs => simp [joinDots] at ih ⊢; exact ih
    · simp only [hc, if_false]
      cases hs : splitDots rest with
      | nil => exact absurd hs (splitDots_ne_nil rest)
      | cons p ps =>
        rw [hs] at ih
        cases ps with
        | nil => simp [joinDots] at ih ⊢; exact ih
        | cons q qs =>
          simp only [joinDots] at ih ⊢
          rw [List.cons_append, ih]

lemma isDigitCh_ne_dot {c : Char} (h : isDigitCh c = true) : c ≠ '.' := by
  intro hc
  subst hc
  simp [isDigitCh] at h

namespace Portmap

/-! ### Lemmas about the probe loop and the allocation table -/

lemma probeAux_some {pa : AllocTable} {port : Int} :
    ∀ {fuel i c}, probeAux pa port i fuel = some c →
      tblGet pa c = none ∧ c ≤ 65535 ∧
      ∃ j : Nat, i ≤ j ∧ j < i + fuel ∧ c = port + (j : Int) := by
  intro fuel
  induction fuel with
  | zero => intro i c h; simp [probeAux] at h
  | succ n ih =>
    intro i c h
    rw [probeAux] at h
    split at h
    · exact absurd h (by simp)
    · rename_i h1
      split at h
      · obtain ⟨hfree, hle, j, hj1, hj2, hj3⟩ := ih h
        exact ⟨hfree, hle, j, by omega, by omega, hj3⟩
      · rename_i h2
        rw [Option.some.injEq] at h
        subst h
        refine ⟨?_, by omega, i, le_refl i, by omega, rfl⟩
        cases hg : tblGet pa (port + (i : Int)) with
        | none => rfl
        | some v => rw [hg] at h2; simp at h2

lemma tblGet_cons_isSome {pa : AllocTable} {x k : Int} {v : PortMapping}
    (h : (tblGet pa x).isSome = true) : (tblGet ((k, v) :: pa) x).isSome = true := by
  by_cases hx : x = k <;> simp [tblGet, hx, h]

lemma tblGet_cons_self {pa : AllocTable} {k : Int} {v : PortMapping} :
    tblGet ((k, v) :: pa) k = some v := by
  simp [tblGet]

lemma Allocate_eq_some {pa pa' : AllocTable} {ip : String} {rp c : Int}
    (h : Allocate pa ip rp = (some c, pa')) :
    tblGet pa c = none ∧ pa' = (c, ⟨c, ip, rp⟩) :: pa ∧ c ≤ 65535 ∧
    ∃ j : Nat, j < 256 ∧ c = LocalPort ip rp + (j : Int) := by
  unfold Allocate at h
  cases hp : probe pa (LocalPort ip rp) with
  | none => rw [hp] at h; exact absurd h (by simp)
  | some c' =>
    rw [hp] at h
    have h' : c' = c ∧ ((c', (⟨c', ip, rp⟩ : PortMapping)) :: pa) = pa' := by
      have := h
      simp only [Prod.mk.injEq, Option.some.injEq] at this
      exact this
    obtain ⟨rfl, rfl⟩ := h'
    obtain ⟨hfree, hle, j, _, hj2, hj3⟩ := probeAux_some hp
    exact ⟨hfree, rfl, hle, j, by omega, hj3⟩

lemma Allocate_eq_none {pa pa' : AllocTable} {ip : String} {rp : Int}
    (h : Allocate pa ip rp = (none, pa')) : pa' = pa := by
  unfold Allocate at h
  cases hp : probe pa (LocalPort ip rp) with
  | none =>
    rw [hp] at h
    have h' : pa = pa' := by
      have := h
      simp only [Prod.mk.injEq] at this
      exact this.2
    exact h'.symm
  | some c =>
    rw [hp] at h
    exact absurd h (by simp)

lemma notMem_runAlloc {x : Int} :
    ∀ {reqs : List (String × Int)} {pa : AllocTable},
      (tblGet pa x).isSome = true → x ∉ (runAlloc pa reqs).1 := by
  intro reqs
  induction reqs with
  | nil => intro pa _; simp [runAlloc]
  | cons req rest ih =>
    intro pa hx
    obtain ⟨ip, rp⟩ := req
    rw [runAlloc]
    cases hA : Allocate pa ip rp with
    | mk res pa' =>
      cases res with
      | some c =>
        obtain ⟨hfree, hpa', _, _⟩ := Allocate_eq_some hA
        simp only [List.mem_cons, not_or]
        constructor
        · intro hxc; rw [hxc, hfree] at hx; simp at hx
        · exact ih (hpa' ▸ tblGet_cons_isSome hx)
      | none =>
        have := Allocate_eq_none hA
        subst this
        exact ih hx

lemma runAlloc_nodup :
    ∀ (reqs : List (String × Int)) (pa : AllocTable), (runAlloc pa reqs).1.Nodup := by
  intro reqs
  induction reqs with
  | nil => intro pa; simp [runAlloc]
  | cons req rest ih =>
    intro pa
    obtain ⟨ip, rp⟩ := req
    rw [runAlloc]
    cases hA : Allocate pa ip rp with
    | mk res pa' =>
      cases res with
      | some c =>
        simp only [List.nodup_cons]
        refine ⟨?_, ih pa'⟩
        obtain ⟨_, hpa', _, _⟩ := Allocate_eq_some hA
        exact notMem_runAlloc (hpa' ▸ (by rw [tblGet_cons_self]; rfl))
      | none => exact ih pa'

lemma length_filter_le_of_mono {l : List Nat} {p q : Nat → Bool}
    (mono : ∀ i ∈ l, p i = true → q i = true) :
    (l.filter p).length ≤ (l.filter q).length := by
  induction l with
  | nil => simp
  | cons a t ih =>
    have ht : ∀ i ∈ t, p i = true → q i = true :=
      fun i hi => mono i (List.mem_cons_of_mem a hi)
    cases hpa : p a with
    | true =>
      have hqa := mono a (List.mem_cons_self a t) hpa
      simp only [List.filter_cons, hpa, hqa, if_true, List.length_cons]
      exact Nat.succ_le_succ (ih ht)
    | false =>
      cases hqa : q a with
      | true =>
        simp only [List.filter_cons, hpa, hqa, if_true, List.length_cons,
          Bool.false_eq_true, if_false]
        exact le_trans (ih ht) (Nat.le_succ _)
      | false =>
        simp only [List.filter_cons, hpa, hqa, Bool.false_eq_true, if_false]
        exact ih ht

lemma length_filter_lt_of_flip {l : List Nat} {p q : Nat → Bool}
    (mono : ∀ i ∈ l, p i = true → q i = true) :
    ∀ {j}, j ∈ l → p j = false → q j = true →
      (l.filter p).length < (l.filter q).length := by
  induction l with
  | nil => simp
  | cons a t ih =>
    intro j hj hpj hqj
    have ht : ∀ i ∈ t, p i = true → q i = true :=
      fun i hi => mono i (List.mem_cons_of_mem a hi)
    rcases List.mem_cons.mp hj with rfl | hjt
    · simp only [List.filter_cons, hqj, hpj, if_true, Bool.false_eq_true,
        if_false, List.length_cons]
      exact Nat.lt_succ_of_le (length_filter_le_of_mono ht)
    · cases hpa : p a with
      | true =>
        have hqa := mono a (List.mem_cons_self a t) hpa
        simp only [List.filter_cons, hpa, hqa, if_true, List.length_cons]
        exact Nat.succ_lt_succ (ih ht hjt hpj hqj)
      | false =>
        cases hqa : q a with
        | true =>
          simp only [List.filter_cons, hpa, hqa, if_true, Bool.false_eq_true,
            if_false, List.length_cons]
          exact Nat.lt_succ_of_lt (ih ht hjt hpj hqj)
        | false =>
          simp only [List.filter_cons, hpa, hqa, Bool.false_eq_true, if_false]
          exact ih ht hjt hpj hqj

lemma takenCount_le (pa : AllocTable) (port : Int) : takenCount pa port ≤ 256 := by
  unfold takenCount
  have h := List.length_filter_le
    (fun (i : Nat) => (tblGet pa (port + (i : Int))).isSome) (List.range 256)
  rw [List.length_range] at h
  exact h

lemma takenCount_lt_of_success {pa pa' : AllocTable} {ip : String} {rp c : Int}
    (h : Allocate pa ip rp = (some c, pa')) :
    takenCount pa (LocalPort ip rp) < takenCount pa' (LocalPort ip rp) := by
  obtain ⟨hfree, hpa', _, j, hj, hcj⟩ := Allocate_eq_some h
  subst hpa'
  unfold takenCount
  refine length_filter_lt_of_flip (fun i _ hp => tblGet_cons_isSome hp)
    (List.mem_range.mpr hj) ?_ ?_
  · show (tblGet pa (LocalPort ip rp + (j : Int))).isSome = false
    rw [← hcj, hfree]; rfl
  · show (tblGet ((c, ⟨c, ip, rp⟩) :: pa) (LocalPort ip rp + (j : Int))).isSome = true
    rw [← hcj, tblGet_cons_self]; rfl

lemma allocMany_takenCount {ip : String} {rp : Int} :
    ∀ {n : Nat} {pa : AllocTable},
      (allocMany ip rp n pa).1 = true →
      takenCount pa (LocalPort ip rp) + n
        ≤ takenCount (allocMany ip rp n pa).2 (LocalPort ip rp) := by
  intro n
  induction n with
  | zero => intro pa _; simp [allocMany]
  | succ k ih =>
    intro pa hall
    cases hA : Allocate pa ip rp with
    | mk res pa' =>
      cases res with
      | some c =>
        have hred : allocMany ip rp (k + 1) pa = allocMany ip rp k pa' := by
          rw [allocMany, hA]
        rw [hred] at hall ⊢
        have h1 := takenCount_lt_of_success hA
        have h2 := ih hall
        omega
      | none =>
        have hred : allocMany ip rp (k + 1) pa = (false, pa') := by
          rw [allocMany, hA]
        rw [hred] at hall
        simp at hall

lemma filter_length_eq_all {l : List Nat} {p : Nat → Bool}
    (h : (l.filter p).length = l.length) : ∀ i ∈ l, p i = true := by
  induction l with
  | nil => simp
  | cons a t ih =>
    intro i hi
    cases hpa : p a with
    | true =>
      rcases List.mem_cons.mp hi with rfl | hit
      · exact hpa
      · simp only [List.filter_cons, hpa, if_true, List.length_cons,
          Nat.add_right_cancel_iff] at h
        exact ih h i hit
    | false =>
      exfalso
      simp only [List.filter_cons, hpa, Bool.false_eq_true, if_false,
        List.length_cons] at h
      have := List.length_filter_le p t
      omega

lemma all_taken_of_takenCount {pa : AllocTable} {port : Int}
    (h : takenCount pa port = 256) :
    ∀ i : Nat, i < 256 → (tblGet pa (port + (i : Int))).isSome = true := by
  intro i hi
  unfold takenCount at h
  have h' : ((List.range 256).filter
      (fun (i : Nat) => (tblGet pa (port + (i : Int))).isSome)).length
      = (List.range 256).length := by
    rw [List.length_range]; exact h
  exact filter_length_eq_all h' i (List.mem_range.mpr hi)

lemma probeAux_none_of_all_taken {pa : AllocTable} {port : Int}
    (h : ∀ i : Nat, i < 256 → (tblGet pa (port + (i : Int))).isSome = true) :
    ∀ (fuel i : Nat), i + fuel = 256 → probeAux pa port i fuel = none := by
  intro fuel
  induction fuel with
  | zero => intro i _; rfl
  | succ k ih =>
    intro i hif
    rw [probeAux]
    by_cases h1 : port + (i : Int) > 65535
    · simp [h1]
    · simp only [h1, if_false]
      rw [h i (by omega)]
      simp only [if_true]
      exact ih (i + 1) (by omega)
lemma tblGet_seqTable_isSome {ip : String} {rp port : Int} :
    ∀ {n j : Nat}, j < n →
      (tblGet (seqTable ip rp port n) (port + (j : Int))).isSome = true := by
  intro n
  induction n with
  | zero => intro j hj; omega
  | succ k ih =>
    intro j hj
    rw [seqTable]
    by_cases hk : j = k
    · subst hk; rw [tblGet_cons_self]; rfl
    · have : j < k := by omega
      have hne : port + (j : Int) ≠ port + (k : Int) := by
        intro he; have : (j : Int) = (k : Int) := by omega
        exact hk (by exact_mod_cast this)
      rw [tblGet]
      simp only [hne, if_false]
      exact ih this

lemma tblGet_seqTable_none {ip : String} {rp port : Int} :
    ∀ {n m : Nat}, n ≤ m →
      tblGet (seqTable ip rp port n) (port + (m : Int)) = none := by
  intro n
  induction n with
  | zero => intro m _; rfl
  | succ k ih =>
    intro m hm
    rw [seqTable, tblGet]
    have hne : port + (m : Int) ≠ port + (k : Int) := by
      have hk : (k : Int) < (m : Int) := by
        exact_mod_cast Nat.lt_of_lt_of_le (Nat.lt_succ_self k) hm
      omega
    simp only [hne, if_false]
    exact ih (by omega)

lemma probeAux_seqTable {ip : String} {rp port : Int}
    (hle : port + 255 ≤ 65535) {n : Nat} (hn : n < 256) :
    ∀ (fuel i : Nat), i + fuel = 256 → i ≤ n →
      probeAux (seqTable ip rp port n) port i fuel = some (port + (n : Int)) := by
  intro fuel
  induction fuel with
  | zero => intro i hif hin; omega
  | succ k ih =>
    intro i hif hin
    rw [probeAux]
    have hcand : ¬ port + (i : Int) > 65535 := by
      have : (i : Int) ≤ 255 := by exact_mod_cast Nat.le_of_lt_succ (by omega)
      omega
    simp only [hcand, if_false]
    by_cases hii : i = n
    · subst hii
      rw [tblGet_seqTable_none (le_refl i)]
      rfl
    · rw [tblGet_seqTable_isSome (by omega)]
      simp only [if_true]
      exact ih (i + 1) (by omega) (by omega)

lemma Allocate_seqTable {ip : String} {rp : Int}
    (hle : LocalPort ip rp + 255 ≤ 65535) {n : Nat} (hn : n < 256) :
    Allocate (seqTable ip rp (LocalPort ip rp) n) ip rp
      = (some (LocalPort ip rp + (n : Int)),
         seqTable ip rp (LocalPort ip rp) (n + 1)) := by
  unfold Allocate probe
  rw [probeAux_seqTable hle hn 256 0 rfl (Nat.zero_le n)]
  rfl

lemma allocMany_seqTable {ip : String} {rp : Int}
    (hle : LocalPort ip rp + 255 ≤ 65535) :
    ∀ (k n : Nat), n + k ≤ 256 →
      allocMany ip rp k (seqTable ip rp (LocalPort ip rp) n)
        = (true, seqTable ip rp (LocalPort ip rp) (n + k)) := by
  intro k
  induction k with
  | zero => intro n _; simp [allocMany]
  | succ j ih =>
    intro n hnk
    rw [allocMany, Allocate_seqTable hle (by omega)]
    show allocMany ip rp j (seqTable ip rp (LocalPort ip rp) (n + 1))
        = (true, seqTable ip rp (LocalPort ip rp) (n + (j + 1)))
    rw [ih (n + 1) (by omega)]
    rw [Nat.add_assoc, Nat.add_comm 1 j]

lemma allocMany_256_from_empty {ip : String} {rp : Int}
    (hle : LocalPort ip rp + 255 ≤ 65535) :
    allocMany ip rp 256 [] = (true, seqTable ip rp (LocalPort ip rp) 256) := by
  have h := allocMany_seqTable hle 256 0 (by omega)
  rw [Nat.zero_add] at h
  exact h


/-- C8: PortBase maps 443→4430, 80→8030, 22→2230, 554→5540 and every other
remote port `p` to `10000 + 10·p` (so 9999→109990); and for every IPv4
address, `LocalPort ip p = PortBase p + (last octet of ip)`, with
`LocalPort "10.0.0.5" 443 = 4435`. -/
theorem c8_port_formula :
    PortBase 443 = 4430 ∧ PortBase 80 = 8030 ∧ PortBase 22 = 2230 ∧
    PortBase 554 = 5540 ∧
    (∀ p : Int, p ≠ 443 → p ≠ 80 → p ≠ 22 → p ≠ 554 →
      PortBase p = 10000 + 10 * p) ∧
    PortBase 9999 = 109990 ∧
    (∀ (ip : String) (a b c d : Nat) (p : Int),
      parseIPv4 ip = some (a, b, c, d) → LocalPort ip p = PortBase p + (d : Int)) ∧
    LocalPort "10.0.0.5" 443 = 4435 := by
  refine ⟨by decide, by decide, by decide, by decide, ?_, by decide, ?_, by decide⟩
  · intro p h1 h2 h3 h4
    simp only [PortBase, h1, h2, h3, h4, if_false]
    ring
  · intro ip a b c d p h
    simp [LocalPort, lastOctet, h]

/-- Witness for C8 at the concrete inputs named by the claim. -/
theorem c8_port_formula_witness :
    LocalPort "10.0.0.5" 443 = PortBase 443 + (5 : Int) ∧
    PortBase 9999 = 10000 + 10 * 9999 :=
  ⟨c8_port_formula.2.2.2.2.2.2.1 "10.0.0.5" 10 0 0 5 443 (by decide),
   c8_port_formula.2.2.2.2.1 9999 (by decide) (by decide) (by decide) (by decide)⟩

lemma lastOctet_nonneg (ip : String) : 0 ≤ lastOctet ip := by
  unfold lastOctet
  cases h : parseIPv4 ip with
  | some q =>
    obtain ⟨a, b, c, d⟩ := q
    simp
  | none =>
    simp only []
    by_cases hlen : (splitDots ip.data).length = 4
    · simp only [hlen, if_true]
      cases ha : goAtoi ((splitDots ip.data).getLastD []) with
      | none => simp
      | some m =>
        by_cases hm : 0 ≤ m ∧ m ≤ 255
        · simp [hm.1, hm.2]
        · simp only [hm, if_false]; rfl
    · simp [hlen]

/-- C10: every successfully allocated local port is at most 65535, and for
every remote host and unrecognized remote port `p` with
`10000 + 10·p > 65535`, `Allocate` fails even on an empty table because the
whole probe window lies above 65535. -/
theorem c10_port_ceiling :
    (∀ (pa : AllocTable) (ip : String) (rp c : Int),
      (Allocate pa ip rp).1 = some c → c ≤ 65535) ∧
    (∀ (pa : AllocTable) (ip : String) (p : Int),
      p ≠ 443 → p ≠ 80 → p ≠ 22 → p ≠ 554 → 10000 + 10 * p > 65535 →
      (Allocate pa ip p).1 = none) := by
  constructor
  · intro pa ip rp c h
    unfold Allocate at h
    cases hp : probe pa (LocalPort ip rp) with
    | none => rw [hp] at h; simp at h
    | some c' =>
      rw [hp] at h
      simp only [Option.some.injEq] at h
      subst h
      exact (probeAux_some hp).2.1
  · intro pa ip p h1 h2 h3 h4 hbig
    have hbase : PortBase p = 10000 + 10 * p := by
      simp only [PortBase, h1, h2, h3, h4, if_false]; ring
    have hport : LocalPort ip p > 65535 := by
      have := lastOctet_nonneg ip
      unfold LocalPort
      omega
    have hnone : probeAux pa (LocalPort ip p) 0 256 = none := by
      rw [probeAux]
      have hx : LocalPort ip p + ((0 : Nat) : Int) > 65535 := by
        push_cast
        omega
      rw [if_pos hx]
    unfold Allocate probe
    rw [hnone]

/-- Witness for C10 at concrete inputs: port 443 from an empty table yields
4435 ≤ 65535, and port 9999 always fails. -/
theorem c10_port_ceiling_witness :
    (4435 : Int) ≤ 65535 ∧ (Allocate [] "10.0.0.1" 9999).1 = none :=
  ⟨c10_port_ceiling.1 [] "10.0.0.5" 443 4435 (by decide),
   c10_port_ceiling.2 [] "10.0.0.1" 9999 (by decide) (by decide) (by decide)
     (by decide) (by decide)⟩

/-- C5: over any sequence of `Allocate` calls with no intervening `Release`,
the successfully returned local ports are pairwise distinct; and for one
fixed remote host and port, if 256 consecutive allocations all succeeded
(exhausting the probe window) then the 257th allocation fails. -/
theorem c5_alloc_unique_exhaust :
    (∀ (pa : AllocTable) (reqs : List (String × Int)),
      (runAlloc pa reqs).1.Nodup) ∧
    (∀ (ip : String) (rp : Int) (pa : AllocTable),
      (allocMany ip rp 256 pa).1 = true →
      (Allocate (allocMany ip rp 256 pa).2 ip rp).1 = none) := by
  constructor
  · intro pa reqs; exact runAlloc_nodup reqs pa
  · intro ip rp pa hall
    have h1 := allocMany_takenCount hall
    have h2 := takenCount_le (allocMany ip rp 256 pa).2 (LocalPort ip rp)
    have h3 : takenCount (allocMany ip rp 256 pa).2 (LocalPort ip rp) = 256 := by omega
    have h4 := all_taken_of_takenCount h3
    unfold Allocate
    rw [show probe (allocMany ip rp 256 pa).2 (LocalPort ip rp) = none from
      probeAux_none_of_all_taken h4 256 0 rfl]

/-- Witness for C5: a concrete two-request run is duplicate-free, and after
256 successful allocations for 10.0.0.1:443 from an empty table the 257th
fails. -/
theorem c5_alloc_unique_exhaust_witness :
    (runAlloc [] [("10.0.0.5", 443), ("10.0.0.5", 443)]).1.Nodup ∧
    (Allocate (allocMany "10.0.0.1" 443 256 []).2 "10.0.0.1" 443).1 = none :=
  ⟨c5_alloc_unique_exhaust.1 [] [("10.0.0.5", 443), ("10.0.0.5", 443)],
   c5_alloc_unique_exhaust.2 "10.0.0.1" 443 []
     (by rw [allocMany_256_from_empty (by decide)])⟩


end Portmap

namespace Gateway

lemma validateSubnet_none_of_parts {s : String} {p1 p2 p3 : List Char}
    (hsp : splitDots s.data = [p1, p2, p3])
    (h1 : p1 ≠ [] ∧ p1.length ≤ 3 ∧ p1.all isDigitCh = true ∧ digitsToNat p1 ≤ 255)
    (h2 : p2 ≠ [] ∧ p2.length ≤ 3 ∧ p2.all isDigitCh = true ∧ digitsToNat p2 ≤ 255)
    (h3 : p3 ≠ [] ∧ p3.length ≤ 3 ∧ p3.all isDigitCh = true ∧ digitsToNat p3 ≤ 255) :
    ValidateSubnet s = none := by
  have hB : subnetReMatch s = true := by
    unfold subnetReMatch
    rw [hsp]
    have l1 : 1 ≤ p1.length := List.length_pos.mpr h1.1
    have l2 : 1 ≤ p2.length := List.length_pos.mpr h2.1
    have l3 : 1 ≤ p3.length := List.length_pos.mpr h3.1
    simp [l1, h1.2.1, h1.2.2.1, l2, h2.2.1, h2.2.2.1, l3, h3.2.1, h3.2.2.1]
  unfold ValidateSubnet
  rw [hB, hsp]
  simp [h1.2.2.2, h2.2.2.2, h3.2.2.2]

lemma validateSubnet_none_iff (s : String) :
    ValidateSubnet s = none ↔ SpecSubnet s := by
  constructor
  · intro h
    cases hsp : splitDots s.data with
    | nil => exact absurd hsp (splitDots_ne_nil _)
    | cons p1 ps =>
      cases ps with
      | nil =>
        exfalso
        have hB : subnetReMatch s = false := by
          unfold subnetReMatch; rw [hsp]
        unfold ValidateSubnet at h
        rw [hB] at h
        simp at h
      | cons p2 ps2 =>
        cases ps2 with
        | nil =>
          exfalso
          have hB : subnetReMatch s = false := by
            unfold subnetReMatch; rw [hsp]
          unfold ValidateSubnet at h
          rw [hB] at h
          simp at h
        | cons p3 ps3 =>
          cases ps3 with
          | cons p4 ps4 =>
            exfalso
            have hB : subnetReMatch s = false := by
              unfold subnetReMatch; rw [hsp]
            unfold ValidateSubnet at h
            rw [hB] at h
            simp at h
          | nil =>
            unfold ValidateSubnet at h
            cases hB : subnetReMatch s with
            | false => rw [hB] at h; simp at h
            | true =>
              rw [hB, hsp] at h
              have hrange : digitsToNat p1 ≤ 255 ∧ digitsToNat p2 ≤ 255 ∧
                  digitsToNat p3 ≤ 255 := by
                by_cases hr : digitsToNat p1 ≤ 255 ∧ digitsToNat p2 ≤ 255 ∧
                    digitsToNat p3 ≤ 255
                · exact hr
                · simp [hr] at h
              have hmatch := hB
              unfold subnetReMatch at hmatch
              rw [hsp] at hmatch
              simp only [Bool.and_eq_true, decide_eq_true_eq] at hmatch
              obtain ⟨⟨⟨⟨hl1, hu1⟩, hd1⟩, ⟨⟨hl2, hu2⟩, hd2⟩⟩, ⟨⟨hl3, hu3⟩, hd3⟩⟩ :=
                hmatch
              refine ⟨p1, p2, p3, ?_, ?_⟩
              · have hj := joinDots_splitDots s.data
                rw [hsp] at hj
                simpa [joinDots] using hj.symm
              · intro p hp
                have hne : ∀ q : List Char, 1 ≤ q.length → q ≠ [] := by
                  intro q hq hnil
                  rw [hnil] at hq
                  simp at hq
                rcases List.mem_cons.mp hp with rfl | hp2
                · exact ⟨hne p hl1, hu1, hd1, hrange.1⟩
                rcases List.mem_cons.mp hp2 with rfl | hp3
                · exact ⟨hne p hl2, hu2, hd2, hrange.2.1⟩
                rcases List.mem_cons.mp hp3 with rfl | hp4
                · exact ⟨hne p hl3, hu3, hd3, hrange.2.2⟩
                · simp at hp4
  · rintro ⟨p1, p2, p3, hdecomp, hparts⟩
    have h1 := hparts p1 (by simp)
    have h2 := hparts p2 (by simp)
    have h3 := hparts p3 (by simp)
    have nod1 : ∀ c ∈ p1, c ≠ '.' := fun c hc =>
      isDigitCh_ne_dot (by have := List.all_eq_true.mp h1.2.2.1 c hc; exact this)
    have nod2 : ∀ c ∈ p2, c ≠ '.' := fun c hc =>
      isDigitCh_ne_dot (by have := List.all_eq_true.mp h2.2.2.1 c hc; exact this)
    have nod3 : ∀ c ∈ p3, c ≠ '.' := fun c hc =>
      isDigitCh_ne_dot (by have := List.all_eq_true.mp h3.2.2.1 c hc; exact this)
    have hsp : splitDots s.data = [p1, p2, p3] := by
      rw [hdecomp, splitDots_dot_cons _ p1 nod1, splitDots_dot_cons _ p2 nod2,
        splitDots_no_dot p3 nod3]
    exact validateSubnet_none_of_parts hsp h1 h2 h3

/-- C3: `ValidateSubnet` accepts a string exactly when it is three
dot-separated decimal octets each in 0–255; the concrete strings named by
the claim behave as stated; and both gateway implementations reject an
invalid subnet before any command string containing it is passed to the
command runner (`FloodPing` always, `ARPTable` for non-empty subnets). -/
theorem c3_validate_subnet :
    (∀ s : String, ValidateSubnet s = none ↔ SpecSubnet s) ∧
    ValidateSubnet "10.0.0" = none ∧
    ValidateSubnet "192.168.1" = none ∧
    ValidateSubnet "10.0.0; rm -rf" ≠ none ∧
    ValidateSubnet "999.0.0" ≠ none ∧
    ValidateSubnet "10.0" ≠ none ∧
    (∀ s : String, ValidateSubnet s ≠ none →
      mikrotikFloodPingCmds s = [] ∧ ubiquitiFloodPingCmds s = [] ∧
      (s ≠ "" → mikrotikARPTableCmds s = [] ∧
        ∀ ipNeighOk : Bool, ubiquitiARPTableCmds s ipNeighOk = [])) := by
  refine ⟨validateSubnet_none_iff, by decide, by decide, by decide, by decide,
    by decide, ?_⟩
  intro s hbad
  cases hv : ValidateSubnet s with
  | none => exact absurd hv hbad
  | some e =>
    refine ⟨?_, ?_, ?_⟩
    · unfold mikrotikFloodPingCmds; rw [hv]
    · unfold ubiquitiFloodPingCmds; rw [hv]
    · intro hne
      constructor
      · unfold mikrotikARPTableCmds; rw [if_pos hne, hv]
      · intro ipNeighOk
        unfold ubiquitiARPTableCmds; rw [if_pos hne, hv]

/-- Witness for C3: "10.0.0" satisfies the spec-side predicate via the
proved equivalence, and the invalid "999.0.0" reaches no command runner
in either gateway implementation. -/
theorem c3_validate_subnet_witness :
    SpecSubnet "10.0.0" ∧
    mikrotikFloodPingCmds "999.0.0" = [] ∧
    ubiquitiFloodPingCmds "999.0.0" = [] ∧
    mikrotikARPTableCmds "999.0.0" = [] ∧
    ubiquitiARPTableCmds "999.0.0" false = [] :=
  ⟨(c3_validate_subnet.1 "10.0.0").mp (by decide),
   (c3_validate_subnet.2.2.2.2.2.2 "999.0.0" (by decide)).1,
   (c3_validate_subnet.2.2.2.2.2.2 "999.0.0" (by decide)).2.1,
   ((c3_validate_subnet.2.2.2.2.2.2 "999.0.0" (by decide)).2.2 (by decide)).1,
   ((c3_validate_subnet.2.2.2.2.2.2 "999.0.0" (by decide)).2.2 (by decide)).2
     false⟩


end Gateway

namespace Discovery

/-- C9: classification checks the keyword lists in order with first match
winning — a camera keyword always gives `ClassCamera` (default ports
{22,80,443,554}); each later list decides only when no earlier list
matched; and a vendor matching no keyword gives `ClassUnknown` (default
ports {80,443}). -/
theorem c9_classify_by_vendor :
    (∀ v : String,
      cameraKeywords.any (fun kw => hasSub kw.data (toLowerStr v)) = true →
      ClassifyByVendor v = .ClassCamera) ∧
    DefaultPorts .ClassCamera = [22, 80, 443, 554] ∧
    (∀ v : String,
      cameraKeywords.any (fun kw => hasSub kw.data (toLowerStr v)) = false →
      nvrKeywords.any (fun kw => hasSub kw.data (toLowerStr v)) = true →
      ClassifyByVendor v = .ClassNVR) ∧
    (∀ v : String,
      cameraKeywords.any (fun kw => hasSub kw.data (toLowerStr v)) = false →
      nvrKeywords.any (fun kw => hasSub kw.data (toLowerStr v)) = false →
      hasSub "mikrotik".data (toLowerStr v) = true →
      ClassifyByVendor v = .ClassRouter) ∧
    (∀ v : String,
      cameraKeywords.any (fun kw => hasSub kw.data (toLowerStr v)) = false →
      nvrKeywords.any (fun kw => hasSub kw.data (toLowerStr v)) = false →
      hasSub "mikrotik".data (toLowerStr v) = false →
      netKeywords.any (fun kw => hasSub kw.data (toLowerStr v)) = true →
      ClassifyByVendor v = .ClassNetworkDevice) ∧
    (∀ v : String,
      cameraKeywords.any (fun kw => hasSub kw.data (toLowerStr v)) = false →
      nvrKeywords.any (fun kw => hasSub kw.data (toLowerStr v)) = false →
      hasSub "mikrotik".data (toLowerStr v) = false →
      netKeywords.any (fun kw => hasSub kw.data (toLowerStr v)) = false →
      ClassifyByVendor v = .ClassUnknown) ∧
    DefaultPorts .ClassUnknown = [80, 443] := by
  refine ⟨?_, rfl, ?_, ?_, ?_, ?_, rfl⟩
  · intro v h; simp [ClassifyByVendor, h]
  · intro v h1 h2; simp [ClassifyByVendor, h1, h2]
  · intro v h1 h2 h3; simp [ClassifyByVendor, h1, h2, h3]
  · intro v h1 h2 h3 h4; simp [ClassifyByVendor, h1, h2, h3, h4]
  · intro v h1 h2 h3 h4; simp [ClassifyByVendor, h1, h2, h3, h4]

/-- Witness for C9: a Hikvision vendor string (a known camera OUI vendor)
classifies as a camera; an unmatched vendor string classifies unknown. -/
theorem c9_classify_by_vendor_witness :
    ClassifyByVendor "Hikvision Digital Technology" = .ClassCamera ∧
    ClassifyByVendor "Acme Widgets" = .ClassUnknown :=
  ⟨c9_classify_by_vendor.1 "Hikvision Digital Technology" (by decide),
   c9_classify_by_vendor.2.2.2.2.2.1 "Acme Widgets"
     (by decide) (by decide) (by decide) (by decide)⟩


end Discovery

namespace Ssh
/-! ### C4: the listen address is always loopback -/

lemma digitOf_ne_colon (d : Nat) : digitOf d ≠ ':' := by
  unfold digitOf
  split <;> decide

lemma digitOf_ne_dash (d : Nat) : digitOf d ≠ '-' := by
  unfold digitOf
  split <;> decide

lemma natDigitsAux_mem :
    ∀ (fuel n : Nat) (c : Char), c ∈ natDigitsAux fuel n → ∃ d, c = digitOf d := by
  intro fuel
  induction fuel with
  | zero => intro n c hc; simp [natDigitsAux] at hc
  | succ k ih =>
    intro n c hc
    rw [natDigitsAux] at hc
    by_cases h : n < 10
    · simp only [h, if_true, List.mem_singleton] at hc
      exact ⟨n, hc⟩
    · simp only [h, if_false, List.mem_append, List.mem_singleton] at hc
      rcases hc with hc | hc
      · exact ih (n / 10) c hc
      · exact ⟨n % 10, hc⟩

lemma intDecimal_ne_colon {i : Int} {c : Char} (hc : c ∈ intDecimal i) : c ≠ ':' := by
  unfold intDecimal at hc
  by_cases h : i < 0
  · simp only [h, if_true, List.mem_cons] at hc
    rcases hc with rfl | hc
    · decide
    · obtain ⟨d, rfl⟩ := natDigitsAux_mem _ _ _ hc
      exact digitOf_ne_colon d
  · simp only [h, if_false] at hc
    obtain ⟨d, rfl⟩ := natDigitsAux_mem _ _ _ hc
    exact digitOf_ne_colon d

lemma dropWhile_append_colon {t : List Char} :
    ∀ r : List Char, (∀ c ∈ r, c ≠ ':') →
      (r ++ ':' :: t).dropWhile (fun c => c != ':') = ':' :: t := by
  intro r
  induction r with
  | nil => intro _; simp [List.dropWhile]
  | cons a q ih =>
    intro hr
    have ha : (a != ':') = true := bne_iff_ne.mpr (hr a (List.mem_cons_self a q))
    rw [List.cons_append, List.dropWhile_cons, if_pos ha]
    exact ih (fun c hc => hr c (List.mem_cons_of_mem a hc))

lemma addrHost_listenAddr (lp : Int) : addrHost (listenAddr lp) = "127.0.0.1".data := by
  unfold addrHost listenAddr
  have hsplit : "127.0.0.1:".data = "127.0.0.1".data ++ [':'] := by decide
  rw [hsplit, List.append_assoc, List.singleton_append, List.reverse_append]
  have hrev : ∀ c ∈ (intDecimal lp).reverse, c ≠ ':' := by
    intro c hc
    exact intDecimal_ne_colon (List.mem_reverse.mp hc)
  rw [show (':' :: intDecimal lp).reverse = (intDecimal lp).reverse ++ [':']
      from List.reverse_cons ':' (intDecimal lp)]
  rw [List.append_assoc, List.singleton_append,
    dropWhile_append_colon _ hrev, List.drop_one, List.tail_cons,
    List.reverse_reverse]

/-- C4: whenever `Tunnel.Start` succeeds, the address it bound is exactly
`127.0.0.1:<LocalPort>` and its host part is the loopback interface
`127.0.0.1` — for every `LocalPort` value. -/
theorem c4_loopback_bind :
    (∀ (t : Tunnel) (bindOk : Bool) (addr : List Char),
      (tunnelStart t bindOk).1 = some addr →
      addr = listenAddr t.localPort ∧
      addrHost addr = "127.0.0.1".data ∧
      (tunnelStart t bindOk).2.status = .StatusActive) ∧
    (∀ lp : Int, addrHost (listenAddr lp) = "127.0.0.1".data) := by
  constructor
  · intro t bindOk addr h
    cases bindOk with
    | false => simp [tunnelStart] at h
    | true =>
      simp only [tunnelStart, if_true] at h
      rw [Option.some.injEq] at h
      subst h
      exact ⟨rfl, addrHost_listenAddr t.localPort, rfl⟩
  · exact addrHost_listenAddr

/-- Witness for C4 at a concrete tunnel with local port 4435. -/
theorem c4_loopback_bind_witness :
    listenAddr 4435 = listenAddr (NewTunnel 4435 "10.0.0.5" 443).localPort ∧
    addrHost (listenAddr 4435) = "127.0.0.1".data :=
  ⟨(c4_loopback_bind.1 (NewTunnel 4435 "10.0.0.5" 443) true (listenAddr 4435)
      (by decide)).1,
   c4_loopback_bind.2 4435⟩

/-! ### C2: host-key pinning (trust on first use) -/

/-- C2: first contact pins the presented key and accepts (and the pin is
what later lookups find); later contact accepts exactly when the
presented key has the same type and byte-identical marshalled form as
the pinned key, and otherwise reports a host-key mismatch, never
changing the pin. -/
theorem c2_host_key_pinning :
    (∀ (kh : KnownHosts) (host : String) (key : PubKey),
      khGet kh host = none →
      hostKeyCheck kh host key = (.accepted, (host, key) :: kh) ∧
      khGet ((host, key) :: kh) host = some key) ∧
    (∀ (kh : KnownHosts) (host : String) (key stored : PubKey),
      khGet kh host = some stored →
      ((hostKeyCheck kh host key).1 = .accepted ↔
        key.keyType = stored.keyType ∧ key.marshal = stored.marshal) ∧
      (key.keyType = stored.keyType ∧ key.marshal = stored.marshal →
        hostKeyCheck kh host key = (.accepted, kh)) ∧
      (¬ (key.keyType = stored.keyType ∧ key.marshal = stored.marshal) →
        hostKeyCheck kh host key = (.mismatch, kh))) := by
  constructor
  · intro kh host key h
    refine ⟨?_, ?_⟩
    · unfold hostKeyCheck
      rw [h]
    · unfold khGet
      rw [if_pos rfl]
  · intro kh host key stored h
    have heval : hostKeyCheck kh host key =
        if key.keyType ≠ stored.keyType ∨
            constantTimeCompare key.marshal stored.marshal ≠ 1
        then (.mismatch, kh) else (.accepted, kh) := by
      unfold hostKeyCheck
      rw [h]
    by_cases hsame : key.keyType = stored.keyType ∧ key.marshal = stored.marshal
    · have hcmp : constantTimeCompare key.marshal stored.marshal = 1 := by
        unfold constantTimeCompare
        rw [if_pos hsame.2]
      have hcond : ¬ (key.keyType ≠ stored.keyType ∨
          constantTimeCompare key.marshal stored.marshal ≠ 1) := by
        push_neg
        exact ⟨hsame.1, hcmp⟩
      rw [heval, if_neg hcond]
      exact ⟨by simp [hsame], fun _ => rfl, fun hc => absurd hsame hc⟩
    · have hcond : key.keyType ≠ stored.keyType ∨
          constantTimeCompare key.marshal stored.marshal ≠ 1 := by
        by_cases ht : key.keyType = stored.keyType
        · right
          have hm : key.marshal ≠ stored.marshal := by
            intro hm
            exact hsame ⟨ht, hm⟩
          unfold constantTimeCompare
          rw [if_neg hm]
          decide
        · exact Or.inl ht
      rw [heval, if_pos hcond]
      refine ⟨?_, fun hs => absurd hs hsame, fun _ => rfl⟩
      simp only [hsame, iff_false]
      decide

/-- Witness for C2: pin a key for a fresh host, re-accept the identical
key, reject a different key. -/
theorem c2_host_key_pinning_witness :
    hostKeyCheck [] "gw" ⟨"ssh-ed25519", [1, 2, 3]⟩
      = (.accepted, [("gw", ⟨"ssh-ed25519", [1, 2, 3]⟩)]) ∧
    hostKeyCheck [("gw", ⟨"ssh-ed25519", [1, 2, 3]⟩)] "gw" ⟨"ssh-ed25519", [1, 2, 3]⟩
      = (.accepted, [("gw", ⟨"ssh-ed25519", [1, 2, 3]⟩)]) ∧
    hostKeyCheck [("gw", ⟨"ssh-ed25519", [1, 2, 3]⟩)] "gw" ⟨"ssh-ed25519", [9, 9, 9]⟩
      = (.mismatch, [("gw", ⟨"ssh-ed25519", [1, 2, 3]⟩)]) :=
  ⟨(c2_host_key_pinning.1 [] "gw" ⟨"ssh-ed25519", [1, 2, 3]⟩ (by decide)).1,
   (c2_host_key_pinning.2 [("gw", ⟨"ssh-ed25519", [1, 2, 3]⟩)] "gw"
      ⟨"ssh-ed25519", [1, 2, 3]⟩ ⟨"ssh-ed25519", [1, 2, 3]⟩ (by decide)).2.1
      (by decide),
   (c2_host_key_pinning.2 [("gw", ⟨"ssh-ed25519", [1, 2, 3]⟩)] "gw"
      ⟨"ssh-ed25519", [9, 9, 9]⟩ ⟨"ssh-ed25519", [1, 2, 3]⟩ (by decide)).2.2
      (by decide)⟩

/-! ### C7: the accept-error storm limit -/

lemma tenConsec_length {l : List AcceptResult} (h : tenConsecutiveErrs l) :
    10 ≤ l.length := by
  obtain ⟨i, _, hall⟩ := h
  have h9 := hall 9 (by omega)
  rw [List.getElem?_eq_some] at h9
  obtain ⟨hlt, _⟩ := h9
  omega

lemma replicate_err_shift (c : Nat) (l : List AcceptResult) :
    List.replicate c AcceptResult.err ++ AcceptResult.err :: l
      = List.replicate (c + 1) AcceptResult.err ++ l := by
  rw [List.replicate_succ' c AcceptResult.err, List.append_assoc,
    List.singleton_append]

lemma tenConsec_cross_ok {c : Nat} (hc : c ≤ 9) (B : List AcceptResult) :
    tenConsecutiveErrs (List.replicate c AcceptResult.err ++ AcceptResult.ok :: B)
      ↔ tenConsecutiveErrs B := by
  have hlen : (List.replicate c AcceptResult.err).length = c := by simp
  constructor
  · rintro ⟨i, hi, hall⟩
    rw [List.length_append, hlen, List.length_cons] at hi
    by_cases hic : i ≤ c
    · exfalso
      have hj := hall (c - i) (by omega)
      have hidx : i + (c - i) = c := by omega
      rw [hidx] at hj
      have hok : (List.replicate c AcceptResult.err ++
          AcceptResult.ok :: B)[c]? = some AcceptResult.ok := by
        rw [List.getElem?_append_right (le_of_eq hlen), hlen, Nat.sub_self]
        simp
      rw [hok] at hj
      simp at hj
    · push_neg at hic
      refine ⟨i - c - 1, by omega, ?_⟩
      intro j hj
      have hj' := hall j hj
      have hge : (List.replicate c AcceptResult.err).length ≤ i + j := by
        rw [hlen]; omega
      rw [List.getElem?_append_right hge, hlen] at hj'
      have hpos : i + j - c = (i - c - 1 + j) + 1 := by omega
      rw [hpos, List.getElem?_cons_succ] at hj'
      exact hj'
  · rintro ⟨i, hi, hall⟩
    refine ⟨c + 1 + i, ?_, ?_⟩
    · rw [List.length_append, hlen, List.length_cons]
      omega
    · intro j hj
      have hge : (List.replicate c AcceptResult.err).length ≤ c + 1 + i + j := by
        rw [hlen]; omega
      rw [List.getElem?_append_right hge, hlen]
      have hidx : c + 1 + i + j - c = (i + j) + 1 := by omega
      rw [hidx, List.getElem?_cons_succ]
      exact hall j hj

lemma tenConsec_replicate_ten (l : List AcceptResult) :
    tenConsecutiveErrs (List.replicate 10 AcceptResult.err ++ l) := by
  refine ⟨0, ?_, ?_⟩
  · rw [List.length_append, List.length_replicate]
    omega
  · intro j hj
    rw [Nat.zero_add]
    have hlt : j < (List.replicate 10 AcceptResult.err).length := by
      rw [List.length_replicate]; omega
    rw [List.getElem?_append_left hlt]
    rw [List.getElem?_replicate]
    rw [if_pos hj]

lemma acceptLoop_exited_iff :
    ∀ (tr : List AcceptResult) (c : Nat), c ≤ 9 →
      ((acceptLoop tr c).exited = true ↔
        tenConsecutiveErrs (List.replicate c AcceptResult.err ++ tr)) := by
  intro tr
  induction tr with
  | nil =>
    intro c hc
    rw [List.append_nil]
    constructor
    · intro h
      simp [acceptLoop] at h
    · intro h
      exfalso
      have h10 := tenConsec_length h
      rw [List.length_replicate] at h10
      omega
  | cons hd rest ih =>
    intro c hc
    cases hd with
    | ok =>
      have hL : (acceptLoop (AcceptResult.ok :: rest) c).exited
          = (acceptLoop rest 0).exited := rfl
      rw [hL, ih 0 (by omega)]
      rw [show List.replicate 0 AcceptResult.err ++ rest = rest from by simp]
      exact (tenConsec_cross_ok hc rest).symm
    | err =>
      by_cases h10 : c + 1 ≥ 10
      · have hc9 : c = 9 := by omega
        subst hc9
        have hL : (acceptLoop (AcceptResult.err :: rest) 9).exited = true := by
          simp [acceptLoop]

        rw [hL]
        simp only [true_iff]
        rw [replicate_err_shift]
        exact tenConsec_replicate_ten rest
      · have hL : (acceptLoop (AcceptResult.err :: rest) c).exited
            = (acceptLoop rest (c + 1)).exited := by
          simp [acceptLoop, h10]
        rw [hL, ih (c + 1) (by omega), replicate_err_shift]

lemma acceptLoop_exited_failed :
    ∀ (tr : List AcceptResult) (c : Nat),
      (acceptLoop tr c).exited = true →
      (acceptLoop tr c).status = some TunnelStatus.StatusFailed ∧
      (acceptLoop tr c).errSet = true := by
  intro tr
  induction tr with
  | nil => intro c h; simp [acceptLoop] at h
  | cons hd rest ih =>
    intro c h
    cases hd with
    | ok => exact ih 0 h
    | err =>
      by_cases h10 : c + 1 ≥ 10
      · constructor
        · show (acceptLoop (AcceptResult.err :: rest) c).status = _
          rw [acceptLoop, if_pos h10]
        · show (acceptLoop (AcceptResult.err :: rest) c).errSet = _
          rw [acceptLoop, if_pos h10]
      · have h' : (acceptLoop rest (c + 1)).exited = true := by
          have hh := h
          rw [acceptLoop, if_neg h10] at hh
          exact hh
        have hres := ih (c + 1) h'
        constructor
        · rw [acceptLoop, if_neg h10]
          exact hres.1
        · rw [acceptLoop, if_neg h10]
          exact hres.2

lemma acceptLoop_running :
    ∀ (tr : List AcceptResult) (c : Nat),
      (acceptLoop tr c).exited = false →
      (acceptLoop tr c).status = none ∧ (acceptLoop tr c).errSet = false ∧
      (acceptLoop tr c).accepts = tr.length := by
  intro tr
  induction tr with
  | nil => intro c _; exact ⟨rfl, rfl, rfl⟩
  | cons hd rest ih =>
    intro c h
    cases hd with
    | ok =>
      have h' : (acceptLoop rest 0).exited = false := h
      have hres := ih 0 h'
      refine ⟨hres.1, hres.2.1, ?_⟩
      show (acceptLoop rest 0).accepts + 1 = rest.length + 1
      rw [hres.2.2]
    | err =>
      by_cases h10 : c + 1 ≥ 10
      · exfalso
        have hh := h
        rw [acceptLoop, if_pos h10] at hh
        simp at hh
      · have h' : (acceptLoop rest (c + 1)).exited = false := by
          have hh := h
          rw [acceptLoop, if_neg h10] at hh
          exact hh
        have hres := ih (c + 1) h'
        refine ⟨?_, ?_, ?_⟩
        · rw [acceptLoop, if_neg h10]
          exact hres.1
        · rw [acceptLoop, if_neg h10]
          exact hres.2.1
        · rw [acceptLoop, if_neg h10]
          show (acceptLoop rest (c + 1)).accepts + 1 = rest.length + 1
          rw [hres.2.2]

lemma acceptLoop_append_of_exited :
    ∀ (pre post : List AcceptResult) (c : Nat),
      (acceptLoop pre c).exited = true →
      acceptLoop (pre ++ post) c = acceptLoop pre c := by
  intro pre
  induction pre with
  | nil => intro post c h; simp [acceptLoop] at h
  | cons hd rest ih =>
    intro post c h
    cases hd with
    | ok =>
      have h' : (acceptLoop rest 0).exited = true := h
      have heq : acceptLoop (rest.append post) 0 = acceptLoop rest 0 :=
        ih post 0 h'
      simp only [List.cons_append, acceptLoop]
      rw [heq]
    | err =>
      by_cases h10 : c + 1 ≥ 10
      · simp [List.cons_append, acceptLoop, h10]
      · have h' : (acceptLoop rest (c + 1)).exited = true := by
          have hh := h
          rw [acceptLoop, if_neg h10] at hh
          exact hh
        have heq : acceptLoop (rest.append post) (c + 1) = acceptLoop rest (c + 1) :=
          ih post (c + 1) h'
        simp only [List.cons_append, acceptLoop, if_neg h10]
        rw [heq]

/-- C7: once the loop has exited, no later accept outcome is examined (its
behaviour on any extension equals its behaviour on the prefix); ten
consecutive accept errors (the counter resetting on every success) make
the loop set status failed, set the error and exit; and a window without
ten consecutive errors never sets status failed — the loop keeps running
and attempts an accept for every outcome. -/
theorem c7_accept_error_storm :
    (∀ (pre post : List AcceptResult) (c : Nat),
      (acceptLoop pre c).exited = true →
      acceptLoop (pre ++ post) c = acceptLoop pre c) ∧
    (∀ tr : List AcceptResult, tenConsecutiveErrs tr →
      (acceptLoop tr 0).status = some TunnelStatus.StatusFailed ∧
      (acceptLoop tr 0).errSet = true ∧ (acceptLoop tr 0).exited = true) ∧
    (∀ tr : List AcceptResult, ¬ tenConsecutiveErrs tr →
      (acceptLoop tr 0).status = none ∧ (acceptLoop tr 0).errSet = false ∧
      (acceptLoop tr 0).accepts = tr.length ∧
      (acceptLoop tr 0).exited = false) := by
  refine ⟨acceptLoop_append_of_exited, ?_, ?_⟩
  · intro tr h
    have hex : (acceptLoop tr 0).exited = true := by
      rw [acceptLoop_exited_iff tr 0 (by omega)]
      simpa using h
    have hres := acceptLoop_exited_failed tr 0 hex
    exact ⟨hres.1, hres.2, hex⟩
  · intro tr h
    have hex : (acceptLoop tr 0).exited = false := by
      rw [Bool.eq_false_iff]
      intro hx
      apply h
      have hten := (acceptLoop_exited_iff tr 0 (by omega)).mp hx
      simpa using hten
    have hres := acceptLoop_running tr 0 hex
    exact ⟨hres.1, hres.2.1, hres.2.2, hex⟩

/-- Witness for C7: ten straight errors fail the tunnel and freeze the
loop result against any continuation; nine straight errors leave it
running with no failure. -/
theorem c7_accept_error_storm_witness :
    acceptLoop (List.replicate 10 AcceptResult.err ++ [AcceptResult.ok]) 0
      = acceptLoop (List.replicate 10 AcceptResult.err) 0 ∧
    (acceptLoop (List.replicate 10 AcceptResult.err) 0).status
      = some TunnelStatus.StatusFailed ∧
    (acceptLoop (List.replicate 9 AcceptResult.err) 0).status = none ∧
    (acceptLoop (List.replicate 9 AcceptResult.err) 0).accepts = 9 :=
  ⟨c7_accept_error_storm.1 (List.replicate 10 AcceptResult.err)
      [AcceptResult.ok] 0 (by decide),
   (c7_accept_error_storm.2.1 (List.replicate 10 AcceptResult.err)
      (by decide)).1,
   (c7_accept_error_storm.2.2 (List.replicate 9 AcceptResult.err)
      (by decide)).1,
   (c7_accept_error_storm.2.2 (List.replicate 9 AcceptResult.err)
      (by decide)).2.2.1⟩

/-! ### C6: build event ordering -/

lemma buildLoop_run (ok : Nat → Bool) :
    ∀ (specs : List TunnelSpec) (s : MState) (e : Bool),
      s.closed = false → s.chClosed = false → s.buildCancelled = false →
      ∃ e2, buildLoop ok specs s e
        = some (e2, { s with
            tunnels := s.tunnels ++ specs,
            offered := s.offered ++
              specEvents ok s.tunnels.length specs.length }) := by
  intro specs
  induction specs with
  | nil =>
    intro s e h1 h2 h3
    refine ⟨e, ?_⟩
    simp [buildLoop, specEvents]
  | cons sp rest ih =>
    intro s e h1 h2 h3
    obtain ⟨tus, offs, cl, ch, bc, cc⟩ := s
    simp only at h1 h2 h3
    subst h1; subst h2; subst h3
    have hstep : buildLoop ok (sp :: rest) ⟨tus, offs, false, false, false, cc⟩ e
        = buildLoop ok rest
            ⟨tus ++ [sp],
             (offs ++ [⟨tus.length, EventType.EventStarted⟩]) ++
               [⟨tus.length, if ok tus.length then EventType.EventActive
                  else EventType.EventFailed⟩],
             false, false, false, cc⟩ (e || !(ok tus.length)) := rfl
    rw [hstep]
    obtain ⟨e2, he⟩ := ih
      ⟨tus ++ [sp],
       (offs ++ [⟨tus.length, EventType.EventStarted⟩]) ++
         [⟨tus.length, if ok tus.length then EventType.EventActive
            else EventType.EventFailed⟩],
       false, false, false, cc⟩
      (e || !(ok tus.length)) rfl rfl rfl
    rw [he]
    refine ⟨e2, ?_⟩
    simp [specEvents, List.append_assoc]

/-- C6: for every non-empty spec list, on a manager whose channel is open
and whose build was not cancelled, `BuildTunnels` completes and the
events it offers are exactly, in order: started then the single outcome
(active on Start success, failed otherwise) for spec 1, then for spec 2,
and so on — never interleaved — with tunnel `i` built from spec `i`. -/
theorem c6_build_event_order :
    ∀ (ok : Nat → Bool) (specs : List TunnelSpec) (s : MState),
      specs ≠ [] → s.closed = false → s.chClosed = false →
      s.buildCancelled = false →
      ∃ err s2, BuildTunnels ok specs s = some (err, s2) ∧
        s2.offered = s.offered ++
          specEvents ok s.tunnels.length specs.length ∧
        s2.tunnels = s.tunnels ++ specs := by
  intro ok specs s hne h1 h2 h3
  obtain ⟨e2, he⟩ := buildLoop_run ok specs s false h1 h2 h3
  have hno : ¬ (specs.isEmpty = true) := by
    cases specs with
    | nil => exact absurd rfl hne
    | cons a l => simp [List.isEmpty]
  refine ⟨e2, { s with
      tunnels := s.tunnels ++ specs,
      offered := s.offered ++ specEvents ok s.tunnels.length specs.length },
    ?_, rfl, rfl⟩
  unfold BuildTunnels
  rw [if_neg hno]
  exact he

/-- Witness for C6: a concrete two-spec build, the first Start succeeding
and the second failing, offers started(0), active(0), started(1),
failed(1) in that order. -/
theorem c6_build_event_order_witness :
    ∃ err s2,
      BuildTunnels (fun i => i == 0)
        [⟨"10.0.0.5", 443, 4435⟩, ⟨"10.0.0.6", 443, 4436⟩] NewManager
        = some (err, s2) ∧
      s2.offered = NewManager.offered ++
        specEvents (fun i => i == 0) NewManager.tunnels.length 2 ∧
      s2.tunnels = NewManager.tunnels ++
        [⟨"10.0.0.5", 443, 4435⟩, ⟨"10.0.0.6", 443, 4436⟩] :=
  c6_build_event_order (fun i => i == 0)
    [⟨"10.0.0.5", 443, 4435⟩, ⟨"10.0.0.6", 443, 4436⟩] NewManager
    (by decide) rfl rfl rfl

/-! ### C1: CloseAll and the closed-channel guard -/

lemma closeLoop_of_closed (stopErr : Nat → Bool) :
    ∀ (l : List Nat) (s : MState) (err : Bool), s.closed = true →
      ∃ err2, closeLoop stopErr l s err = some (err2, s) := by
  intro l
  induction l with
  | nil => intro s err _; exact ⟨err, rfl⟩
  | cons i rest ih =>
    intro s err hcl
    rw [closeLoop]
    have hemit : emit s ⟨i, EventType.EventClosed⟩ = some s := by
      unfold emit
      rw [if_pos hcl]
    rw [hemit]
    exact ih s (err || stopErr i) hcl

lemma CloseAll_some_flags {stopErr : Nat → Bool} {s s1 : MState} {err : Bool}
    (h : CloseAll stopErr s = some (err, s1)) :
    s1.closed = true ∧ s1.chClosed = true := by
  unfold CloseAll at h
  cases hcl : closeLoop stopErr (List.range s.tunnels.length)
      { s with buildCancelled := true } false with
  | none => rw [hcl] at h; simp at h
  | some p =>
    obtain ⟨err0, sA⟩ := p
    rw [hcl] at h
    dsimp only at h
    by_cases hch : sA.chClosed = true
    · rw [if_pos hch] at h
      simp at h
    · rw [if_neg hch] at h
      simp only [Option.some.injEq, Prod.mk.injEq] at h
      rw [← h.2]
      exact ⟨rfl, rfl⟩

/-- C1 (amended): after any successful `CloseAll`, a second `CloseAll`
always panics closing the already-closed event channel; the `closed`
guard protects only producers — `emit` after close is a silent no-op and
can never hit the closed channel while the guard invariant (channel
closed implies flag set) holds. -/
theorem c1_closeall_twice :
    (∀ (stopErr stopErr2 : Nat → Bool) (s : MState) (err : Bool) (s1 : MState),
      CloseAll stopErr s = some (err, s1) →
      CloseAll stopErr2 s1 = none) ∧
    (∀ (s : MState) (ev : MEvent), s.closed = true → emit s ev = some s) ∧
    (∀ (s : MState) (ev : MEvent), (s.chClosed = true → s.closed = true) →
      emit s ev ≠ none) := by
  refine ⟨?_, ?_, ?_⟩
  · intro stopErr stopErr2 s err s1 h
    obtain ⟨hcl, hch⟩ := CloseAll_some_flags h
    unfold CloseAll
    obtain ⟨err2, he⟩ := closeLoop_of_closed stopErr2
      (List.range s1.tunnels.length) { s1 with buildCancelled := true } false
      (by simpa using hcl)
    rw [he]
    dsimp only
    rw [if_pos (by simpa using hch)]
  · intro s ev hcl
    unfold emit
    rw [if_pos hcl]
  · intro s ev hinv
    unfold emit
    by_cases hcl : s.closed = true
    · rw [if_pos hcl]; simp
    · rw [if_neg hcl]
      have hch : ¬ s.chClosed = true := fun hc => hcl (hinv hc)
      rw [if_neg hch]
      simp

/-- Counterexample to C1 as stated: on a fresh manager the first
`CloseAll` succeeds, and the second `CloseAll` panics (`none`) closing
the already-closed event channel — so calling `CloseAll` twice is not
safe for every Manager. -/
theorem c1_closeall_twice_counterexample :
    CloseAll (fun _ => false) NewManager
      = some (false, ⟨[], [], true, true, true, true⟩) ∧
    CloseAll (fun _ => false) ⟨[], [], true, true, true, true⟩ = none := by
  constructor
  · rfl
  · rfl

/-- Witness for C1: the second `CloseAll` on the concrete state produced
by the first one panics, and the guarded `emit` on that state is a no-op
rather than a panic. -/
theorem c1_closeall_twice_witness :
    CloseAll (fun _ => true) (⟨[], [], true, true, true, true⟩ : MState) = none ∧
    emit (⟨[], [], true, true, true, true⟩ : MState) ⟨0, EventType.EventClosed⟩
      = some ⟨[], [], true, true, true, true⟩ ∧
    emit NewManager ⟨0, EventType.EventStarted⟩ ≠ none :=
  ⟨c1_closeall_twice.1 (fun _ => false) (fun _ => true) NewManager false
      ⟨[], [], true, true, true, true⟩ (by rfl),
   c1_closeall_twice.2.1 ⟨[], [], true, true, true, true⟩
      ⟨0, EventType.EventClosed⟩ rfl,
   c1_closeall_twice.2.2 NewManager ⟨0, EventType.EventStarted⟩ (by decide)⟩


end Ssh

end Lmtm
